import Mathlib

/-
Verification of the pose-estimation core of the depth_gait_analysis repository.

The Python module `modules/pose_estimation.py` is shallowly embedded below:
matrices become `List (List ℚ)` (or lists of `NpFloat` where IEEE special
values matter), dicts keyed by node/label become total functions, and the
`while True` loop of `estimate_lengths` becomes a fuel-indexed iterator.
Functions from the repository modules that are not part of the sources at
hand (`modules/graphs.py`, `modules/linear_algebra.py`, the canonical score
function from `scripts/main/select_proposals.py`) are modelled from the
specification and marked as such in their doc comments.
-/

namespace GaitPose

/-! ### Generic list helpers (getD lemmas used throughout) -/

theorem getD_eq_getElem {α : Type} (l : List α) (i : ℕ) (d : α) (h : i < l.length) :
    l.getD i d = l[i] := by
  induction l generalizing i with
  | nil => simp at h
  | cons x xs ih =>
    cases i with
    | zero => rfl
    | succ n => simpa using ih n (by simpa using h)

theorem getD_mem {α : Type} (l : List α) (i : ℕ) (d : α) (h : i < l.length) :
    l.getD i d ∈ l := by
  rw [getD_eq_getElem l i d h]
  exact List.getElem_mem h

theorem getD_of_ge {α : Type} (l : List α) (i : ℕ) (d : α) (h : l.length ≤ i) :
    l.getD i d = d := by
  induction l generalizing i with
  | nil => cases i <;> rfl
  | cons x xs ih =>
    cases i with
    | zero => simp at h
    | succ n => simpa using ih n (by simpa using h)

theorem getD_map {α β : Type} (f : α → β) (l : List α) (i : ℕ) (d : β) (d' : α)
    (h : i < l.length) : (l.map f).getD i d = f (l.getD i d') := by
  induction l generalizing i with
  | nil => simp at h
  | cons x xs ih =>
    cases i with
    | zero => rfl
    | succ n => simpa using ih n (by simpa using h)

theorem getD_set_self {α : Type} (l : List α) (i : ℕ) (v d : α) (h : i < l.length) :
    (l.set i v).getD i d = v := by
  induction l generalizing i with
  | nil => simp at h
  | cons x xs ih =>
    cases i with
    | zero => rfl
    | succ n => simpa using ih n (by simpa using h)

theorem getD_set_ne {α : Type} (l : List α) (i j : ℕ) (v d : α) (h : i ≠ j) :
    (l.set i v).getD j d = l.getD j d := by
  induction l generalizing i j with
  | nil => rfl
  | cons x xs ih =>
    cases i with
    | zero =>
      cases j with
      | zero => exact absurd rfl h
      | succ m => rfl
    | succ n =>
      cases j with
      | zero => rfl
      | succ m => simpa using ih n m (fun hc => h (by rw [hc]))

theorem getD_zipWith {α β γ : Type} (f : α → β → γ) (l1 : List α) (l2 : List β)
    (i : ℕ) (d : γ) (d1 : α) (d2 : β) (h1 : i < l1.length) (h2 : i < l2.length) :
    (List.zipWith f l1 l2).getD i d = f (l1.getD i d1) (l2.getD i d2) := by
  induction l1 generalizing l2 i with
  | nil => simp at h1
  | cons x xs ih =>
    cases l2 with
    | nil => simp at h2
    | cons y ys =>
      cases i with
      | zero => rfl
      | succ n => simpa using ih ys n (by simpa using h1) (by simpa using h2)

theorem getD_append_left {α : Type} (l1 l2 : List α) (i : ℕ) (d : α)
    (h : i < l1.length) : (l1 ++ l2).getD i d = l1.getD i d := by
  induction l1 generalizing i with
  | nil => simp at h
  | cons x xs ih =>
    cases i with
    | zero => rfl
    | succ n => simpa using ih n (by simpa using h)

theorem getD_append_length {α : Type} (l : List α) (a : α) (l2 : List α) (d : α) :
    (l ++ a :: l2).getD l.length d = a := by
  induction l with
  | nil => rfl
  | cons x xs ih => simpa using ih

/-! ### Rational matrices as lists of lists -/

/-- Entry access with numpy-free default 0 (all claims quantify over in-range
indices where the default is irrelevant). -/
def getEntry (m : List (List ℚ)) (a b : ℕ) : ℚ := (m.getD a []).getD b 0

/-- In-place single-entry write; out-of-range writes are no-ops. -/
def setEntry (m : List (List ℚ)) (a b : ℕ) (v : ℚ) : List (List ℚ) :=
  m.set a ((m.getD a []).set b v)

/-- Shape of `np.zeros(input_matrix.shape)`. -/
def zeros_like (m : List (List ℚ)) : List (List ℚ) :=
  m.map (fun row => row.map (fun _ => (0 : ℚ)))

theorem setEntry_length (m : List (List ℚ)) (a b : ℕ) (v : ℚ) :
    (setEntry m a b v).length = m.length := by
  simp [setEntry]

theorem setEntry_row_length (m : List (List ℚ)) (a b : ℕ) (v : ℚ) (i : ℕ) :
    ((setEntry m a b v).getD i []).length = (m.getD i []).length := by
  unfold setEntry
  by_cases h : a = i
  · subst h
    by_cases hl : a < m.length
    · rw [getD_set_self _ _ _ _ hl]; simp
    · rw [List.set_eq_of_length_le (by omega)]
  · rw [getD_set_ne _ _ _ _ _ h]

theorem zeros_like_length (m : List (List ℚ)) : (zeros_like m).length = m.length := by
  simp [zeros_like]

theorem zeros_like_row_length (m : List (List ℚ)) (i : ℕ) :
    ((zeros_like m).getD i []).length = (m.getD i []).length := by
  by_cases h : i < m.length
  · unfold zeros_like
    rw [getD_map _ _ _ _ [] h]
    simp
  · rw [getD_of_ge _ _ _ (by simpa [zeros_like] using Nat.le_of_not_lt h),
        getD_of_ge _ _ _ (Nat.le_of_not_lt h)]

theorem getEntry_zeros_like (m : List (List ℚ)) (a b : ℕ) :
    getEntry (zeros_like m) a b = 0 := by
  unfold getEntry
  by_cases h : a < m.length
  · unfold zeros_like
    rw [getD_map _ _ _ _ [] h]
    by_cases hb : b < (m.getD a []).length
    · rw [getD_map _ _ _ _ 0 hb]
    · rw [getD_of_ge _ _ _ (by simpa using Nat.le_of_not_lt hb)]
  · rw [getD_of_ge (zeros_like m) a [] (by rw [zeros_like_length]; omega)]
    rfl

theorem getEntry_setEntry_same (m : List (List ℚ)) (a b : ℕ) (v : ℚ)
    (ha : a < m.length) (hb : b < (m.getD a []).length) :
    getEntry (setEntry m a b v) a b = v := by
  unfold getEntry setEntry
  rw [getD_set_self _ _ _ _ ha, getD_set_self _ _ _ _ hb]

theorem getEntry_setEntry_ne (m : List (List ℚ)) (a b x y : ℕ) (v : ℚ)
    (h : ¬(a = x ∧ b = y)) : getEntry (setEntry m a b v) x y = getEntry m x y := by
  unfold getEntry setEntry
  by_cases hax : a = x
  · subst hax
    have hby : b ≠ y := fun hc => h ⟨rfl, hc⟩
    by_cases hl : a < m.length
    · rw [getD_set_self _ _ _ _ hl, getD_set_ne _ _ _ _ _ hby]
    · rw [List.set_eq_of_length_le (by omega)]
  · rw [getD_set_ne _ _ _ _ _ hax]

theorem getEntry_setEntry_oob (m : List (List ℚ)) (a b x y : ℕ) (v : ℚ)
    (h : ¬(a < m.length ∧ b < (m.getD a []).length)) :
    getEntry (setEntry m a b v) x y = getEntry m x y := by
  unfold getEntry setEntry
  by_cases hl : a < m.length
  · have hb : (m.getD a []).length ≤ b := by
      rcases Nat.lt_or_ge b (m.getD a []).length with hc | hc
      · exact absurd ⟨hl, hc⟩ h
      · exact hc
    rw [List.set_eq_of_length_le hb]
    by_cases hax : a = x
    · subst hax
      rw [getD_set_self _ _ _ _ hl]
    · rw [getD_set_ne _ _ _ _ _ hax]
  · rw [List.set_eq_of_length_le (by omega)]

/-! ### filter_by_path (pose_estimation.py, lines 379-411) -/

/-- Translation of `filter_by_path`.  The Python function allocates
`np.zeros(input_matrix.shape)` and runs the triple loop
`for i in range(n_paths): for j in range(n_path_nodes): for k in range(n_path_nodes)`;
whenever `k in part_connections[j]` it copies
`input_matrix[path_matrix[i,j], path_matrix[i,k]]` into the result.
The loop nest is embedded as a fold over the list of loop triples `(i, j, k)`;
`n_path_nodes` is the (uniform) row length of the numpy path matrix. -/
def filter_by_path (input_matrix : List (List ℚ)) (path_matrix : List (List ℕ))
    (part_connections : ℕ → List ℕ) : List (List ℚ) :=
  ((List.range path_matrix.length).flatMap (fun i =>
    (List.range (path_matrix.headD []).length).flatMap (fun j =>
      (List.range (path_matrix.headD []).length).map (fun k => (i, j, k))))).foldl
    (fun m t =>
      if t.2.2 ∈ part_connections t.2.1 then
        setEntry m ((path_matrix.getD t.1 []).getD t.2.1 0)
          ((path_matrix.getD t.1 []).getD t.2.2 0)
          (getEntry input_matrix ((path_matrix.getD t.1 []).getD t.2.1 0)
            ((path_matrix.getD t.1 []).getD t.2.2 0))
      else m)
    (zeros_like input_matrix)

/-- A score-matrix cell `(a, b)` is kept by `filter_by_path`:
some path row `i` and some pair of loop positions `(j, k)` allowed by
`part_connections` point at it. -/
def keep_pair (path_matrix : List (List ℕ)) (part_connections : ℕ → List ℕ)
    (a b : ℕ) : Prop :=
  ∃ i < path_matrix.length, ∃ j < (path_matrix.headD []).length,
    ∃ k < (path_matrix.headD []).length,
      k ∈ part_connections j ∧ (path_matrix.getD i []).getD j 0 = a ∧
        (path_matrix.getD i []).getD k 0 = b

theorem filter_fold_length (S : List (List ℚ)) (P : List (List ℕ))
    (pc : ℕ → List ℕ) (L : List (ℕ × ℕ × ℕ)) (m0 : List (List ℚ)) :
    (L.foldl
      (fun m t =>
        if t.2.2 ∈ pc t.2.1 then
          setEntry m ((P.getD t.1 []).getD t.2.1 0) ((P.getD t.1 []).getD t.2.2 0)
            (getEntry S ((P.getD t.1 []).getD t.2.1 0) ((P.getD t.1 []).getD t.2.2 0))
        else m) m0).length = m0.length := by
  induction L generalizing m0 with
  | nil => rfl
  | cons t L ih =>
    rw [List.foldl_cons, ih]
    by_cases h : t.2.2 ∈ pc t.2.1
    · rw [if_pos h, setEntry_length]
    · rw [if_neg h]

theorem filter_fold_row_length (S : List (List ℚ)) (P : List (List ℕ))
    (pc : ℕ → List ℕ) (L : List (ℕ × ℕ × ℕ)) (m0 : List (List ℚ)) (i : ℕ) :
    ((L.foldl
      (fun m t =>
        if t.2.2 ∈ pc t.2.1 then
          setEntry m ((P.getD t.1 []).getD t.2.1 0) ((P.getD t.1 []).getD t.2.2 0)
            (getEntry S ((P.getD t.1 []).getD t.2.1 0) ((P.getD t.1 []).getD t.2.2 0))
        else m) m0).getD i []).length = ((m0.getD i []).length) := by
  induction L generalizing m0 with
  | nil => rfl
  | cons t L ih =>
    rw [List.foldl_cons, ih]
    by_cases h : t.2.2 ∈ pc t.2.1
    · rw [if_pos h, setEntry_row_length]
    · rw [if_neg h]

theorem filter_fold_entry (S : List (List ℚ)) (P : List (List ℕ))
    (pc : ℕ → List ℕ) (L : List (ℕ × ℕ × ℕ)) (m0 : List (List ℚ)) (a b : ℕ)
    (hlen : m0.length = S.length)
    (hrow : ∀ i, (m0.getD i []).length = (S.getD i []).length) :
    getEntry (L.foldl
      (fun m t =>
        if t.2.2 ∈ pc t.2.1 then
          setEntry m ((P.getD t.1 []).getD t.2.1 0) ((P.getD t.1 []).getD t.2.2 0)
            (getEntry S ((P.getD t.1 []).getD t.2.1 0) ((P.getD t.1 []).getD t.2.2 0))
        else m) m0) a b =
      if (∃ t ∈ L, t.2.2 ∈ pc t.2.1 ∧ (P.getD t.1 []).getD t.2.1 0 = a ∧
            (P.getD t.1 []).getD t.2.2 0 = b) ∧
          a < S.length ∧ b < (S.getD a []).length then
        getEntry S a b
      else getEntry m0 a b := by
  induction L generalizing m0 with
  | nil => simp
  | cons t L ih =>
    rw [List.foldl_cons]
    by_cases hg : t.2.2 ∈ pc t.2.1
    · rw [if_pos hg]
      rw [ih (setEntry m0 _ _ _) (by rw [setEntry_length, hlen])
        (fun i => by rw [setEntry_row_length]; exact hrow i)]
      by_cases hL : (∃ t ∈ L, t.2.2 ∈ pc t.2.1 ∧ (P.getD t.1 []).getD t.2.1 0 = a ∧
          (P.getD t.1 []).getD t.2.2 0 = b) ∧ a < S.length ∧ b < (S.getD a []).length
      · rw [if_pos hL, if_pos ⟨⟨hL.1.choose, List.mem_cons_of_mem t hL.1.choose_spec.1,
          hL.1.choose_spec.2⟩, hL.2⟩]
      · rw [if_neg hL]
        by_cases hw : (P.getD t.1 []).getD t.2.1 0 = a ∧ (P.getD t.1 []).getD t.2.2 0 = b
        · by_cases hrg : a < S.length ∧ b < (S.getD a []).length
          · rw [hw.1, hw.2, getEntry_setEntry_same m0 a b _ (by rw [hlen]; exact hrg.1)
              (by rw [hrow a]; exact hrg.2)]
            rw [if_pos ⟨⟨t, List.mem_cons_self t L, hg, hw.1, hw.2⟩, hrg⟩]
          · rw [hw.1, hw.2]
            rw [getEntry_setEntry_oob m0 a b a b _ (by rw [hlen, hrow a]; exact hrg)]
            rw [if_neg (fun hc => hrg hc.2)]
        · rw [getEntry_setEntry_ne m0 _ _ a b _ hw]
          rw [if_neg]
          intro hc
          rcases hc.1 with ⟨t', ht', hgt', ha', hb'⟩
          rcases List.mem_cons.mp ht' with rfl | ht'
          · exact hw ⟨ha', hb'⟩
          · exact hL ⟨⟨t', ht', hgt', ha', hb'⟩, hc.2⟩
    · rw [if_neg hg, ih m0 hlen hrow]
      by_cases hL : (∃ t ∈ L, t.2.2 ∈ pc t.2.1 ∧ (P.getD t.1 []).getD t.2.1 0 = a ∧
          (P.getD t.1 []).getD t.2.2 0 = b) ∧ a < S.length ∧ b < (S.getD a []).length
      · rw [if_pos hL, if_pos ⟨⟨hL.1.choose, List.mem_cons_of_mem t hL.1.choose_spec.1,
          hL.1.choose_spec.2⟩, hL.2⟩]
      · rw [if_neg hL, if_neg]
        intro hc
        rcases hc.1 with ⟨t', ht', hgt', ha', hb'⟩
        rcases List.mem_cons.mp ht' with rfl | ht'
        · exact hg hgt'
        · exact hL ⟨⟨t', ht', hgt', ha', hb'⟩, hc.2⟩

theorem getEntry_of_oob (S : List (List ℚ)) (a b : ℕ)
    (h : ¬(a < S.length ∧ b < (S.getD a []).length)) : getEntry S a b = 0 := by
  unfold getEntry
  by_cases ha : a < S.length
  · have hb : (S.getD a []).length ≤ b := by
      rcases Nat.lt_or_ge b (S.getD a []).length with hc | hc
      · exact absurd ⟨ha, hc⟩ h
      · exact hc
    exact getD_of_ge _ _ _ hb
  · rw [getD_of_ge _ _ _ (Nat.le_of_not_lt ha)]
    rfl

theorem mem_triple_list (np nn : ℕ) (t : ℕ × ℕ × ℕ) :
    t ∈ (List.range np).flatMap (fun i =>
        (List.range nn).flatMap (fun j =>
          (List.range nn).map (fun k => (i, j, k)))) ↔
      t.1 < np ∧ t.2.1 < nn ∧ t.2.2 < nn := by
  constructor
  · intro h
    rcases List.mem_flatMap.mp h with ⟨i, hi, h2⟩
    rcases List.mem_flatMap.mp h2 with ⟨j, hj, h3⟩
    rcases List.mem_map.mp h3 with ⟨k, hk, rfl⟩
    exact ⟨List.mem_range.mp hi, List.mem_range.mp hj, List.mem_range.mp hk⟩
  · intro ⟨h1, h2, h3⟩
    exact List.mem_flatMap.mpr ⟨t.1, List.mem_range.mpr h1,
      List.mem_flatMap.mpr ⟨t.2.1, List.mem_range.mpr h2,
        List.mem_map.mpr ⟨t.2.2, List.mem_range.mpr h3, rfl⟩⟩⟩

theorem triple_exists_iff_keep (P : List (List ℕ)) (pc : ℕ → List ℕ) (a b : ℕ) :
    (∃ t ∈ (List.range P.length).flatMap (fun i =>
        (List.range (P.headD []).length).flatMap (fun j =>
          (List.range (P.headD []).length).map (fun k => (i, j, k)))),
        t.2.2 ∈ pc t.2.1 ∧ (P.getD t.1 []).getD t.2.1 0 = a ∧
          (P.getD t.1 []).getD t.2.2 0 = b) ↔ keep_pair P pc a b := by
  constructor
  · intro ⟨t, ht, hg, ha, hb⟩
    rcases (mem_triple_list _ _ t).mp ht with ⟨h1, h2, h3⟩
    exact ⟨t.1, h1, t.2.1, h2, t.2.2, h3, hg, ha, hb⟩
  · intro ⟨i, h1, j, h2, k, h3, hg, ha, hb⟩
    exact ⟨(i, j, k), (mem_triple_list _ _ (i, j, k)).mpr ⟨h1, h2, h3⟩, hg, ha, hb⟩

theorem filter_by_path_length (S : List (List ℚ)) (P : List (List ℕ))
    (pc : ℕ → List ℕ) : (filter_by_path S P pc).length = S.length := by
  unfold filter_by_path
  rw [filter_fold_length, zeros_like_length]

theorem filter_by_path_row_length (S : List (List ℚ)) (P : List (List ℕ))
    (pc : ℕ → List ℕ) (a : ℕ) :
    ((filter_by_path S P pc).getD a []).length = (S.getD a []).length := by
  unfold filter_by_path
  rw [filter_fold_row_length, zeros_like_row_length]

theorem filter_by_path_entry_keep (S : List (List ℚ)) (P : List (List ℕ))
    (pc : ℕ → List ℕ) (a b : ℕ) (h : keep_pair P pc a b) :
    getEntry (filter_by_path S P pc) a b = getEntry S a b := by
  unfold filter_by_path
  rw [filter_fold_entry S P pc _ _ a b (zeros_like_length S) (zeros_like_row_length S)]
  by_cases hrg : a < S.length ∧ b < (S.getD a []).length
  · rw [if_pos ⟨(triple_exists_iff_keep P pc a b).mpr h, hrg⟩]
  · rw [if_neg (fun hc => hrg hc.2), getEntry_zeros_like, getEntry_of_oob S a b hrg]

theorem filter_by_path_entry_drop (S : List (List ℚ)) (P : List (List ℕ))
    (pc : ℕ → List ℕ) (a b : ℕ) (h : ¬ keep_pair P pc a b) :
    getEntry (filter_by_path S P pc) a b = 0 := by
  unfold filter_by_path
  rw [filter_fold_entry S P pc _ _ a b (zeros_like_length S) (zeros_like_row_length S)]
  rw [if_neg (fun hc => h ((triple_exists_iff_keep P pc a b).mp hc.1)),
    getEntry_zeros_like]

theorem row_ext (r s : List ℚ) (hlen : r.length = s.length)
    (h : ∀ b, r.getD b 0 = s.getD b 0) : r = s := by
  induction r generalizing s with
  | nil =>
    cases s with
    | nil => rfl
    | cons y ys => simp at hlen
  | cons x xs ih =>
    cases s with
    | nil => simp at hlen
    | cons y ys =>
      have hx : x = y := h 0
      have : xs = ys := ih ys (by simpa using hlen) (fun b => by simpa using h (b + 1))
      rw [hx, this]

theorem matrix_ext (M N : List (List ℚ)) (hlen : M.length = N.length)
    (hrow : ∀ a, (M.getD a []).length = (N.getD a []).length)
    (hent : ∀ a b, getEntry M a b = getEntry N a b) : M = N := by
  induction M generalizing N with
  | nil =>
    cases N with
    | nil => rfl
    | cons y ys => simp at hlen
  | cons x xs ih =>
    cases N with
    | nil => simp at hlen
    | cons y ys =>
      have hx : x = y := row_ext x y (hrow 0) (fun b => hent 0 b)
      have : xs = ys := ih ys (by simpa using hlen)
        (fun a => by simpa using hrow (a + 1))
        (fun a b => by simpa [getEntry] using hent (a + 1) b)
      rw [hx, this]

/-- Claim C3: `filter_by_path` returns a matrix of the same shape as the input
score matrix, whose entry `(a, b)` equals the input entry whenever some path
row `r` and allowed label pair `(j, k)` of `part_connections` satisfy
`PATHS[r, j] = a` and `PATHS[r, k] = b`, and is 0 otherwise; in particular
cells connecting nodes on no common foot path via an allowed pair are zeroed
even when the input score there is positive. -/
theorem filter_by_path_keeps_only_path_pairs (S : List (List ℚ))
    (P : List (List ℕ)) (pc : ℕ → List ℕ) :
    (filter_by_path S P pc).length = S.length ∧
    (∀ a, ((filter_by_path S P pc).getD a []).length = (S.getD a []).length) ∧
    (∀ a b, keep_pair P pc a b →
      getEntry (filter_by_path S P pc) a b = getEntry S a b) ∧
    (∀ a b, ¬ keep_pair P pc a b → getEntry (filter_by_path S P pc) a b = 0) :=
  ⟨filter_by_path_length S P pc, filter_by_path_row_length S P pc,
    filter_by_path_entry_keep S P pc, filter_by_path_entry_drop S P pc⟩

/-- Claim C7: `filter_by_path` is idempotent — filtering an already filtered
score matrix by the same path matrix and part connections changes nothing. -/
theorem filter_by_path_idempotent (S : List (List ℚ)) (P : List (List ℕ))
    (pc : ℕ → List ℕ) :
    filter_by_path (filter_by_path S P pc) P pc = filter_by_path S P pc := by
  apply matrix_ext
  · rw [filter_by_path_length]
  · intro a
    rw [filter_by_path_row_length]
  · intro a b
    by_cases h : keep_pair P pc a b
    · rw [filter_by_path_entry_keep _ P pc a b h]
    · rw [filter_by_path_entry_drop _ P pc a b h, filter_by_path_entry_drop S P pc a b h]

/-! ### estimate_lengths (pose_estimation.py, lines 58-127) -/

/-- Truthiness of `np.all` on a float array, coerced to a number the way
Python's `bool < float` comparison does (`True` is 1, `False` is 0):
`np.all(arr)` is `True` exactly when every element of `arr` is nonzero. -/
def np_all_truthy (l : List ℚ) : ℚ := if l.all (fun x => decide (x ≠ 0)) then 1 else 0

/-- Translation of the loop exit test at line 124 of pose_estimation.py:
`np.all(abs(lengths - prev_lengths)) < eps`.  Note that the comparison is
between the boolean result of `np.all` (as the number 0 or 1) and `eps`,
not between each absolute difference and `eps`. -/
def estimate_lengths_stop (lengths prev_lengths : List ℚ) (eps : ℚ) : Bool :=
  decide (np_all_truthy (List.zipWith (fun a b => |a - b|) lengths prev_lengths) < eps)

/-- Translation of the `while True` loop of `estimate_lengths`.  The loop body
(lines 101-122: rebuild the length adjacency list, run shortest paths over the
first `n_frames` frames and take the per-segment median) is a deterministic
function of the current `lengths` once the series, cost function and frame
count are fixed; it is abstracted as `update`.  The unbounded `while True` is
observed through a fuel parameter: a result of `none` means the loop has not
exited within `fuel` iterations. -/
def estimate_lengths_iter (update : List ℚ → List ℚ) (eps : ℚ) :
    ℕ → List ℚ → Option (List ℚ)
  | 0, _ => none
  | fuel + 1, lengths =>
    if estimate_lengths_stop (update lengths) lengths eps then some (update lengths)
    else estimate_lengths_iter update eps fuel (update lengths)

/-- Elementwise maximum absolute difference between two length vectors — the
convergence measure the specification mandates. -/
def max_abs_diff (l p : List ℚ) : ℚ :=
  (List.zipWith (fun a b => |a - b|) l p).foldl max 0

/-- Claim C1 (code bug evidence): the loop exit test of `estimate_lengths`
does not implement `max |lengths − prev_lengths| < ε`.  With new lengths
`[0, 5]` against previous `[0, 0]` and `ε = 1/100`, the loop stops (one length
is exactly unchanged, so `np.all` is `False`, and `False < ε`) even though the
maximum absolute change is `5 ≥ ε`; conversely with every length changed by
`1/128 < ε` the loop keeps running. -/
theorem estimate_lengths_stop_is_not_eps_criterion :
    estimate_lengths_iter (fun _ => [0, 5]) (1 / 100) 5 [0, 0] = some [0, 5] ∧
    ¬ (max_abs_diff [0, 5] [0, 0] < 1 / 100) ∧
    estimate_lengths_stop [(1 : ℚ) / 64] [1 / 128] (1 / 100) = false ∧
    max_abs_diff [(1 : ℚ) / 64] [1 / 128] < 1 / 100 := by
  refine ⟨by norm_num [estimate_lengths_iter, estimate_lengths_stop, np_all_truthy],
    by norm_num [max_abs_diff, abs_of_nonneg],
    by norm_num [estimate_lengths_stop, np_all_truthy],
    by norm_num [max_abs_diff, abs_of_nonneg]⟩

/-- Claim C9 (code bug evidence): the `while True` loop of `estimate_lengths`
has no iteration bound.  Its only exit is the convergence test, and whenever
`eps ≤ 0` that test can never succeed (the truthiness value of `np.all` is 0
or 1, never below a non-positive `eps`), so the loop never terminates no
matter how many iterations are observed; no `LENGTH_NOT_CONVERGED` result is
ever produced. -/
theorem estimate_lengths_iter_no_bound (update : List ℚ → List ℚ) (eps : ℚ)
    (heps : eps ≤ 0) :
    ∀ fuel lengths, estimate_lengths_iter update eps fuel lengths = none := by
  have hstop : ∀ l p, estimate_lengths_stop l p eps = false := by
    intro l p
    unfold estimate_lengths_stop np_all_truthy
    by_cases h : (List.zipWith (fun a b => |a - b|) l p).all (fun x => decide (x ≠ 0))
    · rw [if_pos h]
      simp only [decide_eq_false_iff_not, not_lt]
      linarith
    · rw [if_neg h]
      simp only [decide_eq_false_iff_not, not_lt]
      linarith
  intro fuel
  induction fuel with
  | zero => intro lengths; rfl
  | succ n ih =>
    intro lengths
    unfold estimate_lengths_iter
    rw [hstop, ih]
    rfl

/-- Witness for C9's theorem at a concrete input: with `eps = 0` the loop
never exits regardless of fuel. -/
theorem estimate_lengths_iter_no_bound_witness :
    estimate_lengths_iter (fun l => l) 0 4 [1] = none :=
  estimate_lengths_iter_no_bound (fun l => l) 0 (by norm_num) 4 [1]

/-! ### Python max / numpy argmax / argmin on nonempty lists -/

/-- Python's `max` of a nonempty sequence (the `default` is returned only on
the empty list, on which Python raises). -/
def list_max {α : Type} [LinearOrder α] [Inhabited α] : List α → α
  | [] => default
  | [x] => x
  | x :: y :: ys => max x (list_max (y :: ys))

/-- Python's `min` of a nonempty sequence. -/
def list_min {α : Type} [LinearOrder α] [Inhabited α] : List α → α
  | [] => default
  | [x] => x
  | x :: y :: ys => min x (list_min (y :: ys))

/-- Index of the first occurrence of the maximum (`np.argmax`). -/
def argmaxIdx {α : Type} [LinearOrder α] [Inhabited α] : List α → ℕ
  | [] => 0
  | [_] => 0
  | x :: y :: ys => if list_max (y :: ys) ≤ x then 0 else argmaxIdx (y :: ys) + 1

/-- Index of the first occurrence of the minimum (`np.argmin`). -/
def argminIdx {α : Type} [LinearOrder α] [Inhabited α] : List α → ℕ
  | [] => 0
  | [_] => 0
  | x :: y :: ys => if x ≤ list_min (y :: ys) then 0 else argminIdx (y :: ys) + 1

theorem list_max_cons {α : Type} [LinearOrder α] [Inhabited α] (x : α)
    (xs : List α) (h : xs ≠ []) : list_max (x :: xs) = max x (list_max xs) := by
  cases xs with
  | nil => exact absurd rfl h
  | cons y ys => rfl

theorem list_min_cons {α : Type} [LinearOrder α] [Inhabited α] (x : α)
    (xs : List α) (h : xs ≠ []) : list_min (x :: xs) = min x (list_min xs) := by
  cases xs with
  | nil => exact absurd rfl h
  | cons y ys => rfl

theorem le_list_max {α : Type} [LinearOrder α] [Inhabited α] :
    ∀ (l : List α) (x : α), x ∈ l → x ≤ list_max l := by
  intro l
  induction l with
  | nil => intro x h; simp at h
  | cons a as ih =>
    intro x h
    rcases List.mem_cons.mp h with rfl | h
    · cases as with
      | nil => exact le_refl _
      | cons b bs => exact le_max_left _ _
    · have hne : as ≠ [] := List.ne_nil_of_mem h
      rw [list_max_cons a as hne]
      exact le_trans (ih x h) (le_max_right _ _)

theorem list_min_le {α : Type} [LinearOrder α] [Inhabited α] :
    ∀ (l : List α) (x : α), x ∈ l → list_min l ≤ x := by
  intro l
  induction l with
  | nil => intro x h; simp at h
  | cons a as ih =>
    intro x h
    rcases List.mem_cons.mp h with rfl | h
    · cases as with
      | nil => exact le_refl _
      | cons b bs => exact min_le_left _ _
    · have hne : as ≠ [] := List.ne_nil_of_mem h
      rw [list_min_cons a as hne]
      exact le_trans (min_le_right _ _) (ih x h)

theorem argmaxIdx_lt_length {α : Type} [LinearOrder α] [Inhabited α] :
    ∀ (l : List α), l ≠ [] → argmaxIdx l < l.length := by
  intro l
  induction l with
  | nil => intro h; exact absurd rfl h
  | cons x xs ih =>
    intro _
    cases xs with
    | nil => simp [argmaxIdx]
    | cons y ys =>
      unfold argmaxIdx
      by_cases h : list_max (y :: ys) ≤ x
      · rw [if_pos h]; simp
      · rw [if_neg h]
        have := ih (List.cons_ne_nil y ys)
        simp only [List.length_cons] at *
        omega

theorem argminIdx_lt_length {α : Type} [LinearOrder α] [Inhabited α] :
    ∀ (l : List α), l ≠ [] → argminIdx l < l.length := by
  intro l
  induction l with
  | nil => intro h; exact absurd rfl h
  | cons x xs ih =>
    intro _
    cases xs with
    | nil => simp [argminIdx]
    | cons y ys =>
      unfold argminIdx
      by_cases h : x ≤ list_min (y :: ys)
      · rw [if_pos h]; simp
      · rw [if_neg h]
        have := ih (List.cons_ne_nil y ys)
        simp only [List.length_cons] at *
        omega

theorem getD_argmaxIdx {α : Type} [LinearOrder α] [Inhabited α] (d : α) :
    ∀ (l : List α), l ≠ [] → l.getD (argmaxIdx l) d = list_max l := by
  intro l
  induction l with
  | nil => intro h; exact absurd rfl h
  | cons x xs ih =>
    intro _
    cases xs with
    | nil => rfl
    | cons y ys =>
      unfold argmaxIdx
      by_cases h : list_max (y :: ys) ≤ x
      · rw [if_pos h]
        show x = list_max (x :: y :: ys)
        rw [list_max_cons x _ (List.cons_ne_nil y ys), max_eq_left h]
      · rw [if_neg h]
        show (y :: ys).getD (argmaxIdx (y :: ys)) d = list_max (x :: y :: ys)
        rw [ih (List.cons_ne_nil y ys), list_max_cons x _ (List.cons_ne_nil y ys),
          max_eq_right (le_of_lt (lt_of_not_le h))]

theorem getD_argminIdx {α : Type} [LinearOrder α] [Inhabited α] (d : α) :
    ∀ (l : List α), l ≠ [] → l.getD (argminIdx l) d = list_min l := by
  intro l
  induction l with
  | nil => intro h; exact absurd rfl h
  | cons x xs ih =>
    intro _
    cases xs with
    | nil => rfl
    | cons y ys =>
      unfold argminIdx
      by_cases h : x ≤ list_min (y :: ys)
      · rw [if_pos h]
        show x = list_min (x :: y :: ys)
        rw [list_min_cons x _ (List.cons_ne_nil y ys), min_eq_left h]
      · rw [if_neg h]
        show (y :: ys).getD (argminIdx (y :: ys)) d = list_min (x :: y :: ys)
        rw [ih (List.cons_ne_nil y ys), list_min_cons x _ (List.cons_ne_nil y ys),
          min_eq_right (le_of_lt (lt_of_not_le h))]

theorem getD_le_argmaxIdx {α : Type} [LinearOrder α] [Inhabited α] (d : α)
    (l : List α) (j : ℕ) (hj : j < l.length) :
    l.getD j d ≤ l.getD (argmaxIdx l) d := by
  have hne : l ≠ [] := by
    intro h
    rw [h] at hj
    simp at hj
  rw [getD_argmaxIdx d l hne]
  exact le_list_max l _ (getD_mem l j d hj)

theorem argminIdx_getD_le {α : Type} [LinearOrder α] [Inhabited α] (d : α)
    (l : List α) (j : ℕ) (hj : j < l.length) :
    l.getD (argminIdx l) d ≤ l.getD j d := by
  have hne : l ≠ [] := by
    intro h
    rw [h] at hj
    simp at hj
  rw [getD_argminIdx d l hne]
  exact list_min_le l _ (getD_mem l j d hj)

theorem getD_lt_of_lt_argmaxIdx {α : Type} [LinearOrder α] [Inhabited α] (d : α) :
    ∀ (l : List α) (j : ℕ), j < argmaxIdx l →
      l.getD j d < l.getD (argmaxIdx l) d := by
  intro l
  induction l with
  | nil => intro j h; simp [argmaxIdx] at h
  | cons x xs ih =>
    intro j h
    cases xs with
    | nil => simp [argmaxIdx] at h
    | cons y ys =>
      unfold argmaxIdx at h ⊢
      by_cases hc : list_max (y :: ys) ≤ x
      · rw [if_pos hc] at h
        simp at h
      · rw [if_neg hc] at h ⊢
        cases j with
        | zero =>
          show x < (y :: ys).getD (argmaxIdx (y :: ys)) d
          rw [getD_argmaxIdx d _ (List.cons_ne_nil y ys)]
          exact lt_of_not_le hc
        | succ k =>
          show (y :: ys).getD k d < (y :: ys).getD (argmaxIdx (y :: ys)) d
          exact ih k (by omega)

/-! ### foot_to_pop (pose_estimation.py, lines 546-581) -/

theorem getD_append_add {α : Type} (l1 l2 : List α) (i : ℕ) (d : α) :
    (l1 ++ l2).getD (l1.length + i) d = l2.getD i d := by
  induction l1 with
  | nil => simp
  | cons x xs ih => simpa [Nat.succ_add] using ih

/-- Translation of `foot_to_pop`.  Positions are rational 3-vectors; numpy
integer-array indexing `population[path, :]` is the map over path entries,
and the head overwrite `pop[0, :] = head_pos` is `List.set 0`.
`np.argmin(path_dist)` is the first index of the minimum. -/
def foot_to_pop (population : List (ℚ × ℚ × ℚ)) (path_matrix : List (List ℕ))
    (path_dist : List ℚ) (foot_num_1 foot_num_2 : ℕ) :
    List (ℚ × ℚ × ℚ) × List (ℚ × ℚ × ℚ) :=
  (((path_matrix.getD foot_num_1 []).map
      (fun idx => population.getD idx default)).set 0
    (population.getD ((path_matrix.getD (argminIdx path_dist) []).getD 0 0) default),
   ((path_matrix.getD foot_num_2 []).map
      (fun idx => population.getD idx default)).set 0
    (population.getD ((path_matrix.getD (argminIdx path_dist) []).getD 0 0) default))

/-- Claim C5: both skeletons returned by `foot_to_pop` carry, in row 0, the
population point indexed by the head of the path whose total distance is
minimum over ALL rows of the path matrix (`np.argmin` over the whole distance
vector), while every non-head row equals the population point at the
corresponding index of the respective chosen path. -/
theorem foot_to_pop_unifies_heads (population : List (ℚ × ℚ × ℚ))
    (path_matrix : List (List ℕ)) (path_dist : List ℚ) (f1 f2 : ℕ)
    (hne1 : path_matrix.getD f1 [] ≠ []) (hne2 : path_matrix.getD f2 [] ≠ []) :
    ((foot_to_pop population path_matrix path_dist f1 f2).1.getD 0 default =
        population.getD
          ((path_matrix.getD (argminIdx path_dist) []).getD 0 0) default ∧
      (foot_to_pop population path_matrix path_dist f1 f2).2.getD 0 default =
        population.getD
          ((path_matrix.getD (argminIdx path_dist) []).getD 0 0) default) ∧
    (∀ j, j < path_dist.length →
      path_dist.getD (argminIdx path_dist) 0 ≤ path_dist.getD j 0) ∧
    (∀ k, 0 < k → k < (path_matrix.getD f1 []).length →
      (foot_to_pop population path_matrix path_dist f1 f2).1.getD k default =
        population.getD ((path_matrix.getD f1 []).getD k 0) default) ∧
    (∀ k, 0 < k → k < (path_matrix.getD f2 []).length →
      (foot_to_pop population path_matrix path_dist f1 f2).2.getD k default =
        population.getD ((path_matrix.getD f2 []).getD k 0) default) := by
  refine ⟨⟨?_, ?_⟩, ?_, ?_, ?_⟩
  · unfold foot_to_pop
    exact getD_set_self _ 0 _ _ (by
      rw [List.length_map]
      exact List.length_pos.mpr hne1)
  · unfold foot_to_pop
    exact getD_set_self _ 0 _ _ (by
      rw [List.length_map]
      exact List.length_pos.mpr hne2)
  · intro j hj
    exact argminIdx_getD_le 0 path_dist j hj
  · intro k hk hklen
    unfold foot_to_pop
    rw [getD_set_ne _ 0 k _ _ (by omega)]
    exact getD_map _ _ k _ 0 hklen
  · intro k hk hklen
    unfold foot_to_pop
    rw [getD_set_ne _ 0 k _ _ (by omega)]
    exact getD_map _ _ k _ 0 hklen

/-- Witness for C5 at a concrete input: population of 3 points, two paths
`[0, 1]` and `[0, 2]` with distances `[7, 4]`; the minimum-distance path is
row 1, so both heads are `population[0]` and the non-head slots follow the
chosen paths. -/
theorem foot_to_pop_unifies_heads_witness :
    ((foot_to_pop [(0, 0, 0), (1, 0, 0), (2, 0, 0)] [[0, 1], [0, 2]] [7, 4] 0 1).1.getD
          0 default =
        [(0, 0, 0), (1, 0, 0), (2, 0, 0)].getD
          ((([[0, 1], [0, 2]] :
            List (List ℕ)).getD (argminIdx [(7 : ℚ), 4]) []).getD 0 0) default ∧
      (foot_to_pop [(0, 0, 0), (1, 0, 0), (2, 0, 0)] [[0, 1], [0, 2]] [7, 4] 0 1).2.getD
          0 default =
        [(0, 0, 0), (1, 0, 0), (2, 0, 0)].getD
          ((([[0, 1], [0, 2]] :
            List (List ℕ)).getD (argminIdx [(7 : ℚ), 4]) []).getD 0 0) default) ∧
    (∀ j, j < ([(7 : ℚ), 4] : List ℚ).length →
      ([(7 : ℚ), 4] : List ℚ).getD (argminIdx [(7 : ℚ), 4]) 0 ≤
        ([(7 : ℚ), 4] : List ℚ).getD j 0) ∧
    (∀ k, 0 < k → k < (([[0, 1], [0, 2]] : List (List ℕ)).getD 0 []).length →
      (foot_to_pop [(0, 0, 0), (1, 0, 0), (2, 0, 0)] [[0, 1], [0, 2]] [7, 4] 0 1).1.getD
          k default =
        [(0, 0, 0), (1, 0, 0), (2, 0, 0)].getD
          ((([[0, 1], [0, 2]] : List (List ℕ)).getD 0 []).getD k 0) default) ∧
    (∀ k, 0 < k → k < (([[0, 1], [0, 2]] : List (List ℕ)).getD 1 []).length →
      (foot_to_pop [(0, 0, 0), (1, 0, 0), (2, 0, 0)] [[0, 1], [0, 2]] [7, 4] 0 1).2.getD
          k default =
        [(0, 0, 0), (1, 0, 0), (2, 0, 0)].getD
          ((([[0, 1], [0, 2]] : List (List ℕ)).getD 1 []).getD k 0) default) :=
  foot_to_pop_unifies_heads [(0, 0, 0), (1, 0, 0), (2, 0, 0)] [[0, 1], [0, 2]]
    [7, 4] 0 1 (by simp) (by simp)

/-! ### Mutation model for foot_to_pop (claim C10) -/

/-- A heap of numpy arrays, addressed by allocation index.  Used to make the
copy-versus-view behaviour of `foot_to_pop` explicit. -/
structure ArrayStore where
  arrays : List (List (ℚ × ℚ × ℚ))

/-- Read the array stored at index `i`. -/
def readArr (s : ArrayStore) (i : ℕ) : List (ℚ × ℚ × ℚ) := s.arrays.getD i []

/-- State-passing rendition of `foot_to_pop` over the array heap.
`population[path, :]` is numpy integer-array (advanced) indexing, which
allocates a fresh copy — modelled as appending a new array to the heap;
the head overwrites `pop_1[0, :] = head_pos` and `pop_2[0, :] = head_pos`
are in-place writes to the two fresh arrays.  Returns the final heap and the
indices of the two result arrays. -/
def foot_to_pop_store (s : ArrayStore) (popId : ℕ) (path_matrix : List (List ℕ))
    (path_dist : List ℚ) (foot_num_1 foot_num_2 : ℕ) : ArrayStore × ℕ × ℕ :=
  (⟨((s.arrays ++
      [(path_matrix.getD foot_num_1 []).map
        (fun idx => (readArr s popId).getD idx default),
       (path_matrix.getD foot_num_2 []).map
        (fun idx => (readArr s popId).getD idx default)]).set s.arrays.length
      (((s.arrays ++
        [(path_matrix.getD foot_num_1 []).map
          (fun idx => (readArr s popId).getD idx default),
         (path_matrix.getD foot_num_2 []).map
          (fun idx => (readArr s popId).getD idx default)]).getD s.arrays.length []).set 0
        ((readArr s popId).getD
          ((path_matrix.getD (argminIdx path_dist) []).getD 0 0) default))).set
      (s.arrays.length + 1)
      ((((s.arrays ++
        [(path_matrix.getD foot_num_1 []).map
          (fun idx => (readArr s popId).getD idx default),
         (path_matrix.getD foot_num_2 []).map
          (fun idx => (readArr s popId).getD idx default)]).set s.arrays.length
        (((s.arrays ++
          [(path_matrix.getD foot_num_1 []).map
            (fun idx => (readArr s popId).getD idx default),
           (path_matrix.getD foot_num_2 []).map
            (fun idx => (readArr s popId).getD idx default)]).getD s.arrays.length []).set 0
          ((readArr s popId).getD
            ((path_matrix.getD (argminIdx path_dist) []).getD 0 0) default))).getD
        (s.arrays.length + 1) []).set 0
        ((readArr s popId).getD
          ((path_matrix.getD (argminIdx path_dist) []).getD 0 0) default))⟩,
   s.arrays.length, s.arrays.length + 1)

theorem foot_to_pop_store_arrays (s : ArrayStore) (popId : ℕ)
    (path_matrix : List (List ℕ)) (path_dist : List ℚ) (f1 f2 : ℕ) :
    (foot_to_pop_store s popId path_matrix path_dist f1 f2).1.arrays =
      ((s.arrays ++
        [(path_matrix.getD f1 []).map
          (fun idx => (readArr s popId).getD idx default),
         (path_matrix.getD f2 []).map
          (fun idx => (readArr s popId).getD idx default)]).set s.arrays.length
        (((path_matrix.getD f1 []).map
          (fun idx => (readArr s popId).getD idx default)).set 0
          ((readArr s popId).getD
            ((path_matrix.getD (argminIdx path_dist) []).getD 0 0) default))).set
        (s.arrays.length + 1)
        (((path_matrix.getD f2 []).map
          (fun idx => (readArr s popId).getD idx default)).set 0
          ((readArr s popId).getD
            ((path_matrix.getD (argminIdx path_dist) []).getD 0 0) default)) := by
  unfold foot_to_pop_store
  rw [getD_append_length]
  rw [getD_set_ne _ s.arrays.length (s.arrays.length + 1) _ _ (by omega)]
  rw [getD_append_add]
  rfl

/-- Claim C10: run over an explicit array heap — where numpy advanced indexing
`population[path, :]` allocates fresh arrays and the head overwrites mutate
only those fresh arrays — `foot_to_pop` leaves the population array unchanged;
the two returned arrays are new ids distinct from the population's and hold
exactly the values of the pure `foot_to_pop`, so repeated runs of the
per-frame pipeline on the same inputs yield identical results. -/
theorem foot_to_pop_store_is_pure (s : ArrayStore) (popId : ℕ)
    (path_matrix : List (List ℕ)) (path_dist : List ℚ) (f1 f2 : ℕ)
    (h : popId < s.arrays.length) :
    readArr (foot_to_pop_store s popId path_matrix path_dist f1 f2).1 popId =
      readArr s popId ∧
    (foot_to_pop_store s popId path_matrix path_dist f1 f2).2.1 ≠ popId ∧
    (foot_to_pop_store s popId path_matrix path_dist f1 f2).2.2 ≠ popId ∧
    readArr (foot_to_pop_store s popId path_matrix path_dist f1 f2).1
        (foot_to_pop_store s popId path_matrix path_dist f1 f2).2.1 =
      (foot_to_pop (readArr s popId) path_matrix path_dist f1 f2).1 ∧
    readArr (foot_to_pop_store s popId path_matrix path_dist f1 f2).1
        (foot_to_pop_store s popId path_matrix path_dist f1 f2).2.2 =
      (foot_to_pop (readArr s popId) path_matrix path_dist f1 f2).2 := by
  refine ⟨?_, by show s.arrays.length ≠ popId; omega,
    by show s.arrays.length + 1 ≠ popId; omega, ?_, ?_⟩
  · show (foot_to_pop_store s popId path_matrix path_dist f1 f2).1.arrays.getD popId [] =
      s.arrays.getD popId []
    rw [foot_to_pop_store_arrays]
    rw [getD_set_ne _ (s.arrays.length + 1) popId _ _ (by omega)]
    rw [getD_set_ne _ s.arrays.length popId _ _ (by omega)]
    exact getD_append_left _ _ _ _ h
  · show (foot_to_pop_store s popId path_matrix path_dist f1 f2).1.arrays.getD
      s.arrays.length [] = (foot_to_pop (readArr s popId) path_matrix path_dist f1 f2).1
    rw [foot_to_pop_store_arrays]
    rw [getD_set_ne _ (s.arrays.length + 1) s.arrays.length _ _ (by omega)]
    rw [getD_set_self _ s.arrays.length _ _ (by
      rw [List.length_append]
      simp)]
    rfl
  · show (foot_to_pop_store s popId path_matrix path_dist f1 f2).1.arrays.getD
      (s.arrays.length + 1) [] =
        (foot_to_pop (readArr s popId) path_matrix path_dist f1 f2).2
    rw [foot_to_pop_store_arrays]
    rw [getD_set_self _ (s.arrays.length + 1) _ _ (by
      rw [List.length_set, List.length_append]
      simp)]
    rfl

/-- Witness for C10 at a concrete heap: one stored population of two points;
after running the store-level `foot_to_pop` the population array is intact and
the two fresh arrays match the pure function. -/
theorem foot_to_pop_store_is_pure_witness :
    readArr (foot_to_pop_store ⟨[[(5, 6, 7), (8, 9, 10)]]⟩ 0 [[0], [1]] [3, 1] 0 1).1 0 =
      readArr ⟨[[(5, 6, 7), (8, 9, 10)]]⟩ 0 ∧
    (foot_to_pop_store ⟨[[(5, 6, 7), (8, 9, 10)]]⟩ 0 [[0], [1]] [3, 1] 0 1).2.1 ≠ 0 ∧
    (foot_to_pop_store ⟨[[(5, 6, 7), (8, 9, 10)]]⟩ 0 [[0], [1]] [3, 1] 0 1).2.2 ≠ 0 ∧
    readArr (foot_to_pop_store ⟨[[(5, 6, 7), (8, 9, 10)]]⟩ 0 [[0], [1]] [3, 1] 0 1).1
        (foot_to_pop_store ⟨[[(5, 6, 7), (8, 9, 10)]]⟩ 0 [[0], [1]] [3, 1] 0 1).2.1 =
      (foot_to_pop (readArr ⟨[[(5, 6, 7), (8, 9, 10)]]⟩ 0) [[0], [1]] [3, 1] 0 1).1 ∧
    readArr (foot_to_pop_store ⟨[[(5, 6, 7), (8, 9, 10)]]⟩ 0 [[0], [1]] [3, 1] 0 1).1
        (foot_to_pop_store ⟨[[(5, 6, 7), (8, 9, 10)]]⟩ 0 [[0], [1]] [3, 1] 0 1).2.2 =
      (foot_to_pop (readArr ⟨[[(5, 6, 7), (8, 9, 10)]]⟩ 0) [[0], [1]] [3, 1] 0 1).2 :=
  foot_to_pop_store_is_pure ⟨[[(5, 6, 7), (8, 9, 10)]]⟩ 0 [[0], [1]] [3, 1] 0 1
    (by simp)

/-! ### enforce_consistency (pose_estimation.py, lines 770-798) -/

/-- A row of a walking-pass table: HEAD, L_FOOT and R_FOOT positions. -/
structure FrameRow where
  head : ℚ × ℚ × ℚ
  l_foot : ℚ × ℚ × ℚ
  r_foot : ℚ × ℚ × ℚ
deriving DecidableEq

instance : Inhabited FrameRow := ⟨⟨default, default, default⟩⟩

/-- The swap `row.L_FOOT, row.R_FOOT = row.R_FOOT, row.L_FOOT`. -/
def swap_feet (r : FrameRow) : FrameRow := ⟨r.head, r.r_foot, r.l_foot⟩

/-- Translation of `enforce_consistency`: start from a copy of the input
table (`df_pass.copy()`), and for each frame position `i` whose
`verified_sides[i]` is false, write back the row with the feet swapped
(`df_consistent.loc[frame] = row`).  The row-by-row loop is a fold over the
frame positions. -/
def enforce_consistency (df_pass : List FrameRow) (verified_sides : List Bool) :
    List FrameRow :=
  (List.range df_pass.length).foldl
    (fun df i =>
      if verified_sides.getD i true then df
      else df.set i (swap_feet (df.getD i default)))
    df_pass

theorem swap_feet_default : swap_feet default = default := rfl

theorem enforce_fold_getD (v : List Bool) :
    ∀ (L : List ℕ) (df : List FrameRow), L.Nodup → ∀ j,
      (L.foldl
        (fun df i =>
          if v.getD i true then df
          else df.set i (swap_feet (df.getD i default)))
        df).getD j default =
      if j ∈ L ∧ v.getD j true = false then swap_feet (df.getD j default)
      else df.getD j default := by
  intro L
  induction L with
  | nil =>
    intro df _ j
    rw [List.foldl_nil, if_neg (fun hc => by simp at hc)]
  | cons i L ih =>
    intro df hnd j
    rw [List.foldl_cons]
    have hni : i ∉ L := (List.nodup_cons.mp hnd).1
    rw [ih _ (List.nodup_cons.mp hnd).2 j]
    by_cases hjL : j ∈ L
    · have hji : j ≠ i := fun hc => hni (hc ▸ hjL)
      have hdf : (if v.getD i true then df
          else df.set i (swap_feet (df.getD i default))).getD j default =
          df.getD j default := by
        by_cases hv : v.getD i true
        · rw [if_pos hv]
        · rw [if_neg hv, getD_set_ne _ _ _ _ _ (fun hc => hji hc.symm)]
      rw [hdf]
      by_cases hvj : v.getD j true = false
      · rw [if_pos ⟨hjL, hvj⟩, if_pos ⟨List.mem_cons_of_mem i hjL, hvj⟩]
      · rw [if_neg (fun hc => hvj hc.2), if_neg (fun hc => hvj hc.2)]
    · rw [if_neg (fun hc => hjL hc.1)]
      by_cases hji : j = i
      · subst hji
        by_cases hv : v.getD j true
        · rw [if_pos hv, if_neg (fun hc => by rw [hc.2] at hv; simp at hv)]
        · rw [if_neg hv, if_pos ⟨List.mem_cons_self j L, Bool.eq_false_iff.mpr hv⟩]
          by_cases hrange : j < df.length
          · rw [getD_set_self _ _ _ _ hrange]
          · rw [List.set_eq_of_length_le (by omega),
              getD_of_ge _ _ _ (by omega), swap_feet_default]
      · have hdf : (if v.getD i true then df
            else df.set i (swap_feet (df.getD i default))).getD j default =
            df.getD j default := by
          by_cases hv : v.getD i true
          · rw [if_pos hv]
          · rw [if_neg hv, getD_set_ne _ _ _ _ _ (fun hc => hji hc.symm)]
        rw [hdf, if_neg (fun hc => by
          rcases List.mem_cons.mp hc.1 with h | h
          · exact hji h
          · exact hjL h)]

theorem enforce_fold_length (v : List Bool) :
    ∀ (L : List ℕ) (df : List FrameRow),
      (L.foldl
        (fun df i =>
          if v.getD i true then df
          else df.set i (swap_feet (df.getD i default)))
        df).length = df.length := by
  intro L
  induction L with
  | nil => intro df; rfl
  | cons i L ih =>
    intro df
    rw [List.foldl_cons, ih]
    by_cases hv : v.getD i true
    · rw [if_pos hv]
    · rw [if_neg hv, List.length_set]

/-- Claim C6: `enforce_consistency` returns a table of the same length in
which every frame whose verification flag is false has its `L_FOOT` and
`R_FOOT` exchanged, frames whose flag is true are unchanged, and the `HEAD`
column is untouched at every position (the input table itself is a value and
is never modified: the function starts from `df_pass.copy()`). -/
theorem enforce_consistency_swaps_unverified (df : List FrameRow)
    (v : List Bool) (hlen : v.length = df.length) :
    (enforce_consistency df v).length = df.length ∧
    (∀ i, i < df.length →
      (enforce_consistency df v).getD i default =
        if v.getD i true then df.getD i default
        else swap_feet (df.getD i default)) ∧
    (∀ i, ((enforce_consistency df v).getD i default).head =
      (df.getD i default).head) := by
  refine ⟨enforce_fold_length v _ df, ?_, ?_⟩
  · intro i hi
    unfold enforce_consistency
    rw [enforce_fold_getD v _ df (List.nodup_range _) i]
    by_cases hv : v.getD i true
    · rw [if_pos hv, if_neg (fun hc => by rw [hc.2] at hv; simp at hv)]
    · rw [if_neg hv,
        if_pos ⟨List.mem_range.mpr hi, Bool.eq_false_iff.mpr hv⟩]
  · intro i
    unfold enforce_consistency
    rw [enforce_fold_getD v _ df (List.nodup_range _) i]
    by_cases hc : i ∈ List.range df.length ∧ v.getD i true = false
    · rw [if_pos hc]
      rfl
    · rw [if_neg hc]

/-- Witness for C6 at a concrete two-frame pass: frame 0 verified (kept),
frame 1 unverified (feet swapped, head kept). -/
theorem enforce_consistency_swaps_unverified_witness :
    (enforce_consistency
        [⟨(0, 0, 1), (0, 1, 0), (0, -1, 0)⟩, ⟨(1, 0, 1), (1, -1, 0), (1, 1, 0)⟩]
        [true, false]).length =
      ([⟨(0, 0, 1), (0, 1, 0), (0, -1, 0)⟩,
        ⟨(1, 0, 1), (1, -1, 0), (1, 1, 0)⟩] : List FrameRow).length ∧
    (∀ i, i < ([⟨(0, 0, 1), (0, 1, 0), (0, -1, 0)⟩,
        ⟨(1, 0, 1), (1, -1, 0), (1, 1, 0)⟩] : List FrameRow).length →
      (enforce_consistency
          [⟨(0, 0, 1), (0, 1, 0), (0, -1, 0)⟩, ⟨(1, 0, 1), (1, -1, 0), (1, 1, 0)⟩]
          [true, false]).getD i default =
        if ([true, false] : List Bool).getD i true then
          ([⟨(0, 0, 1), (0, 1, 0), (0, -1, 0)⟩,
            ⟨(1, 0, 1), (1, -1, 0), (1, 1, 0)⟩] : List FrameRow).getD i default
        else swap_feet (([⟨(0, 0, 1), (0, 1, 0), (0, -1, 0)⟩,
            ⟨(1, 0, 1), (1, -1, 0), (1, 1, 0)⟩] : List FrameRow).getD i default)) ∧
    (∀ i, ((enforce_consistency
        [⟨(0, 0, 1), (0, 1, 0), (0, -1, 0)⟩, ⟨(1, 0, 1), (1, -1, 0), (1, 1, 0)⟩]
        [true, false]).getD i default).head =
      (([⟨(0, 0, 1), (0, 1, 0), (0, -1, 0)⟩,
        ⟨(1, 0, 1), (1, -1, 0), (1, 1, 0)⟩] : List FrameRow).getD i default).head) :=
  enforce_consistency_swaps_unverified
    [⟨(0, 0, 1), (0, 1, 0), (0, -1, 0)⟩, ⟨(1, 0, 1), (1, -1, 0), (1, 1, 0)⟩]
    [true, false] rfl

/-! ### paths_to_foot (pose_estimation.py, lines 232-285) -/

/-- Failure kinds surfaced by the path-tracing layer. -/
inductive GraphError where
  | PATH_BROKEN
deriving DecidableEq

/-- Modelled from the spec: `trace_path(prev, target)` of the missing module
`modules/graphs.py` returns the index sequence from the source to `target`
by reversing the predecessor chain, and fails with `PATH_BROKEN` if any node
in the chain has no predecessor and is not a source (spec section 4.C).  The
fuel argument bounds the chain length (one more than the node count suffices
for any prev map produced by shortest paths on a DAG); exhausting it is also
a broken path. -/
def trace_path (prev : ℕ → Option ℕ) (source : ℕ → Bool) :
    ℕ → ℕ → Except GraphError (List ℕ)
  | 0, _ => .error .PATH_BROKEN
  | fuel + 1, target =>
    match prev target with
    | none => if source target then .ok [target] else .error .PATH_BROKEN
    | some u =>
      match trace_path prev source fuel u with
      | .ok path => .ok (path ++ [target])
      | .error e => .error e

/-- Sequence the per-element computations, propagating the first failure —
the behaviour of a Python loop whose body may raise. -/
def mapExcept {α β ε : Type} (f : α → Except ε β) : List α → Except ε (List β)
  | [] => .ok []
  | a :: as =>
    match f a with
    | .error e => .error e
    | .ok b =>
      match mapExcept f as with
      | .error e => .error e
      | .ok bs => .ok (b :: bs)

/-- Source nodes of the per-frame DAG are those with label 0 (head nodes,
see `pop_shortest_paths`, line 372). -/
def head_source (labels : List ℕ) : ℕ → Bool :=
  fun n => decide (n < labels.length) && decide (labels.getD n 0 = 0)

/-- Foot node indices: `np.where(labels == max(labels))[0]`. -/
def foot_indices (labels : List ℕ) : List ℕ :=
  (List.range labels.length).filter (fun i => decide (labels.getD i 0 = list_max labels))

/-- Translation of `paths_to_foot`: for each foot index (label equal to
`max(labels)`) compute `gr.trace_path(prev, foot)` into a row of the path
matrix and `dist[foot]` into the distance vector.  The Python loop body has
no handling for a failed trace, so a broken chain propagates as an error of
the whole call. -/
def paths_to_foot (prev : ℕ → Option ℕ) (dist : ℕ → ℚ) (labels : List ℕ) :
    Except GraphError (List (List ℕ) × List ℚ) :=
  match mapExcept
      (fun foot => trace_path prev (head_source labels) (labels.length + 1) foot)
      (foot_indices labels) with
  | .error e => .error e
  | .ok rows => .ok (rows, (foot_indices labels).map dist)

theorem mapExcept_ok {α β ε : Type} (f : α → Except ε β) :
    ∀ (l : List α) (bs : List β), mapExcept f l = .ok bs →
      bs.length = l.length ∧
        ∀ k (da : α) (db : β), k < l.length → f (l.getD k da) = .ok (bs.getD k db) := by
  intro l
  induction l with
  | nil =>
    intro bs h
    cases bs with
    | nil => exact ⟨rfl, fun k da db hk => by simp at hk⟩
    | cons b bs => simp [mapExcept] at h
  | cons a as ih =>
    intro bs h
    unfold mapExcept at h
    cases hfa : f a with
    | error e => rw [hfa] at h; simp at h
    | ok b =>
      rw [hfa] at h
      cases hmb : mapExcept f as with
      | error e => rw [hmb] at h; simp at h
      | ok bs' =>
        rw [hmb] at h
        simp only [Except.ok.injEq] at h
        subst h
        rcases ih bs' hmb with ⟨hlen, hget⟩
        refine ⟨by simp [hlen], ?_⟩
        intro k da db hk
        cases k with
        | zero => exact hfa
        | succ n => exact hget n da db (by simpa using hk)

/-- Claim C4 counterexample: with labels `[0, 1, 1]` and a predecessor map
whose node 2 (a foot) has no predecessor and is not a source, `paths_to_foot`
does not return a path matrix with the broken row dropped — the whole call
fails with `PATH_BROKEN`. -/
theorem paths_to_foot_error_instead_of_dropping :
    paths_to_foot (fun n => if n = 1 then some 0 else none) (fun n => (n : ℚ))
        [0, 1, 1] =
      Except.error GraphError.PATH_BROKEN := by
  rfl

/-- Claim C4 (amended): when `paths_to_foot` returns at all, the path matrix
has exactly one row per foot node (index whose label equals the maximum
label), row `k` is the traced predecessor-chain path of the `k`-th foot and
the distance vector lists `dist[foot]` for every foot, in order — no row is
ever dropped; if any foot's chain is broken the call fails with `PATH_BROKEN`
instead of dropping that row. -/
theorem paths_to_foot_rows (prev : ℕ → Option ℕ) (dist : ℕ → ℚ)
    (labels : List ℕ) (M : List (List ℕ)) (Dv : List ℚ)
    (h : paths_to_foot prev dist labels = .ok (M, Dv)) :
    M.length = (foot_indices labels).length ∧
    Dv = (foot_indices labels).map dist ∧
    ∀ k, k < (foot_indices labels).length →
      trace_path prev (head_source labels) (labels.length + 1)
          ((foot_indices labels).getD k 0) =
        .ok (M.getD k []) := by
  unfold paths_to_foot at h
  cases hm : mapExcept
      (fun foot => trace_path prev (head_source labels) (labels.length + 1) foot)
      (foot_indices labels) with
  | error e => rw [hm] at h; simp at h
  | ok rows =>
    rw [hm] at h
    simp only [Except.ok.injEq, Prod.mk.injEq] at h
    rcases mapExcept_ok _ (foot_indices labels) rows hm with ⟨hlen, hget⟩
    refine ⟨by rw [← h.1, hlen], h.2.symm, ?_⟩
    intro k hk
    rw [← h.1]
    exact hget k 0 [] hk

/-- Witness for C4's amended theorem at a concrete input: labels `[0, 1]`
with the single unbroken path `0 → 1`. -/
theorem paths_to_foot_rows_witness :
    ([[0, 1]] : List (List ℕ)).length = (foot_indices [0, 1]).length ∧
    ([(1 : ℚ)] : List ℚ) = (foot_indices [0, 1]).map (fun n => (n : ℚ)) ∧
    ∀ k, k < (foot_indices [0, 1]).length →
      trace_path (fun n => if n = 1 then some 0 else none) (head_source [0, 1])
          (([0, 1] : List ℕ).length + 1) ((foot_indices [0, 1]).getD k 0) =
        .ok (([[0, 1]] : List (List ℕ)).getD k []) :=
  paths_to_foot_rows (fun n => if n = 1 then some 0 else none) (fun n => (n : ℚ))
    [0, 1] [[0, 1]] [(1 : ℚ)] rfl

/-! ### get_score_matrix (pose_estimation.py, lines 288-336) -/

/-- IEEE-754 double values as numpy produces them here: NaN, the two
infinities, or an exact finite value.  Zero is unsigned (the measured and
expected distances that reach the score function are nonnegative, so the
`+0` convention matches numpy's behaviour on these inputs). -/
inductive NpFloat where
  | nan
  | inf
  | ninf
  | fin (q : ℚ)
deriving DecidableEq

/-- IEEE subtraction on `NpFloat`. -/
def NpFloat.sub : NpFloat → NpFloat → NpFloat
  | nan, _ => nan
  | _, nan => nan
  | inf, inf => nan
  | inf, ninf => inf
  | inf, fin _ => inf
  | ninf, ninf => nan
  | ninf, inf => ninf
  | ninf, fin _ => ninf
  | fin _, inf => ninf
  | fin _, ninf => inf
  | fin a, fin b => fin (a - b)

/-- IEEE division on `NpFloat` (with unsigned zero): a nonzero finite value
divided by zero is a correctly signed infinity, `0/0` is NaN. -/
def NpFloat.div : NpFloat → NpFloat → NpFloat
  | nan, _ => nan
  | _, nan => nan
  | inf, inf => nan
  | inf, ninf => nan
  | ninf, inf => nan
  | ninf, ninf => nan
  | inf, fin b => if b < 0 then ninf else inf
  | ninf, fin b => if b < 0 then inf else ninf
  | fin _, inf => fin 0
  | fin _, ninf => fin 0
  | fin a, fin b =>
    if b = 0 then (if a = 0 then nan else if 0 < a then inf else ninf)
    else fin (a / b)

/-- IEEE squaring on `NpFloat`. -/
def NpFloat.sq : NpFloat → NpFloat
  | nan => nan
  | inf => inf
  | ninf => inf
  | fin a => fin (a * a)

/-- The `np.isnan` test. -/
def NpFloat.isnan : NpFloat → Bool
  | nan => true
  | _ => false

/-- Modelled from the spec: the canonical score function
`s(a, b) = 1 − (a/b − 1)²` supplied by the missing
`scripts/main/select_proposals.py` (spec sections 3 and 6). -/
def score_canonical (a b : NpFloat) : NpFloat :=
  (NpFloat.fin 1).sub (((a.div b).sub (NpFloat.fin 1)).sq)

/-- Modelled from the spec: the expected-distance matrix produced by
`gr.labelled_nodes_to_graph` followed by `gr.adj_list_to_matrix` (missing
module `modules/graphs.py`): entry `(i, j)` is the expected distance for the
label pair `(labels[i], labels[j])` and NaN when that pair is not in the
label adjacency list. -/
def expected_dist_matrix (labels : List ℕ) (label_adj_list : ℕ → ℕ → Option ℚ) :
    List (List NpFloat) :=
  labels.map (fun li =>
    labels.map (fun lj =>
      match label_adj_list li lj with
      | some d => NpFloat.fin d
      | none => NpFloat.nan))

/-- Translation of `get_score_matrix`: apply the vectorized score function to
the measured-distance matrix and the expected-distance matrix, then replace
every NaN entry by 0 (`score_matrix[np.isnan(score_matrix)] = 0`).  The
measured-distance matrix `cdist(population, population)` is taken as an input
(its entries are arbitrary nonnegative floats; none of the claims depend on
how they arise from the 3D points).  Returns the pair
`(score_matrix, dist_matrix)` as the source does. -/
def get_score_matrix (dist_matrix : List (List NpFloat)) (labels : List ℕ)
    (label_adj_list : ℕ → ℕ → Option ℚ) (score_func : NpFloat → NpFloat → NpFloat) :
    List (List NpFloat) × List (List NpFloat) :=
  ((List.zipWith (fun drow erow => List.zipWith score_func drow erow) dist_matrix
      (expected_dist_matrix labels label_adj_list)).map
    (fun row => row.map (fun x => if x.isnan then NpFloat.fin 0 else x)),
   dist_matrix)

/-- Entry access on an NpFloat matrix, defaulting to NaN out of range. -/
def getEntryF (m : List (List NpFloat)) (i j : ℕ) : NpFloat :=
  (m.getD i []).getD j NpFloat.nan

theorem score_canonical_nan_right (x : NpFloat) :
    score_canonical x NpFloat.nan = NpFloat.nan := by
  cases x <;> rfl

theorem score_canonical_zero_zero :
    score_canonical (NpFloat.fin 0) (NpFloat.fin 0) = NpFloat.nan := by
  rfl

theorem score_canonical_pos_zero (q : ℚ) (hq : 0 < q) :
    score_canonical (NpFloat.fin q) (NpFloat.fin 0) = NpFloat.ninf := by
  have hdiv : (NpFloat.fin q).div (NpFloat.fin 0) = NpFloat.inf := by
    simp only [NpFloat.div]
    simp [ne_of_gt hq, hq]
  unfold score_canonical
  rw [hdiv]
  rfl

theorem get_score_matrix_entry (D : List (List NpFloat)) (labels : List ℕ)
    (adj : ℕ → ℕ → Option ℚ) (sf : NpFloat → NpFloat → NpFloat) (i j : ℕ)
    (hiD : i < D.length) (hil : i < labels.length)
    (hjD : j < (D.getD i []).length) (hjl : j < labels.length) :
    getEntryF (get_score_matrix D labels adj sf).1 i j =
      (fun x => if x.isnan then NpFloat.fin 0 else x)
        (sf ((D.getD i []).getD j NpFloat.nan)
          (match adj (labels.getD i 0) (labels.getD j 0) with
           | some d => NpFloat.fin d
           | none => NpFloat.nan)) := by
  unfold getEntryF get_score_matrix
  have hexp_len : (expected_dist_matrix labels adj).length = labels.length := by
    simp [expected_dist_matrix]
  have hraw_len : (List.zipWith (fun drow erow => List.zipWith sf drow erow) D
      (expected_dist_matrix labels adj)).length =
      min D.length labels.length := by
    rw [List.length_zipWith, hexp_len]
  rw [getD_map _ _ i _ [] (by rw [hraw_len]; omega)]
  rw [getD_zipWith _ D (expected_dist_matrix labels adj) i [] [] []
    hiD (by rw [hexp_len]; exact hil)]
  have hexp_row : (expected_dist_matrix labels adj).getD i [] =
      labels.map (fun lj =>
        match adj (labels.getD i 0) lj with
        | some d => NpFloat.fin d
        | none => NpFloat.nan) := by
    unfold expected_dist_matrix
    rw [getD_map _ _ i _ 0 hil]
  rw [hexp_row]
  rw [getD_map _ _ j _ NpFloat.nan (by
    rw [List.length_zipWith, List.length_map]
    omega)]
  rw [getD_zipWith sf _ _ j NpFloat.nan NpFloat.nan NpFloat.nan hjD
    (by rw [List.length_map]; exact hjl)]
  rw [getD_map _ _ j _ 0 hjl]

/-- Claim C8 counterexample: with labels `[0, 1]`, expected length 0 for the
pair `(0, 1)` and measured distance 1, the canonical score evaluates to
`1 − (1/0 − 1)² = −inf`, which is not NaN, so `get_score_matrix` returns the
entry `−inf` — not 0 — for a zero expected length. -/
theorem get_score_matrix_neg_inf_entry :
    getEntryF (get_score_matrix
        [[NpFloat.fin 0, NpFloat.fin 1], [NpFloat.fin 1, NpFloat.fin 0]] [0, 1]
        (fun a b => if a = 0 ∧ b = 1 then some 0 else none) score_canonical).1 0 1 =
      NpFloat.ninf ∧ NpFloat.ninf ≠ NpFloat.fin 0 := by
  exact ⟨rfl, by decide⟩

/-- Claim C8 (amended): under the canonical score, no entry of the returned
score matrix is NaN (every NaN produced by the score function is replaced by
0); entries whose label pair has no expected distance are 0; a zero expected
length yields NaN → 0 when the measured distance is also 0, but yields `−inf`
— returned unchanged — when the measured distance is positive. -/
theorem get_score_matrix_nan_policy (D : List (List NpFloat)) (labels : List ℕ)
    (adj : ℕ → ℕ → Option ℚ) :
    (∀ row ∈ (get_score_matrix D labels adj score_canonical).1, ∀ x ∈ row,
      x.isnan = false) ∧
    (∀ i j, i < D.length → i < labels.length → j < (D.getD i []).length →
      j < labels.length → adj (labels.getD i 0) (labels.getD j 0) = none →
      getEntryF (get_score_matrix D labels adj score_canonical).1 i j =
        NpFloat.fin 0) ∧
    (∀ i j, i < D.length → i < labels.length → j < (D.getD i []).length →
      j < labels.length → adj (labels.getD i 0) (labels.getD j 0) = some 0 →
      (D.getD i []).getD j NpFloat.nan = NpFloat.fin 0 →
      getEntryF (get_score_matrix D labels adj score_canonical).1 i j =
        NpFloat.fin 0) ∧
    (∀ i j, i < D.length → i < labels.length → j < (D.getD i []).length →
      j < labels.length → adj (labels.getD i 0) (labels.getD j 0) = some 0 →
      ∀ q : ℚ, 0 < q → (D.getD i []).getD j NpFloat.nan = NpFloat.fin q →
      getEntryF (get_score_matrix D labels adj score_canonical).1 i j =
        NpFloat.ninf) := by
  refine ⟨?_, ?_, ?_, ?_⟩
  · intro row hrow x hx
    unfold get_score_matrix at hrow
    rcases List.mem_map.mp hrow with ⟨row', _, rfl⟩
    rcases List.mem_map.mp hx with ⟨y, _, rfl⟩
    by_cases hy : y.isnan
    · rw [if_pos hy]; rfl
    · rw [if_neg hy]
      exact Bool.eq_false_iff.mpr hy
  · intro i j h1 h2 h3 h4 hadj
    rw [get_score_matrix_entry D labels adj score_canonical i j h1 h2 h3 h4, hadj]
    rw [score_canonical_nan_right]
    rfl
  · intro i j h1 h2 h3 h4 hadj hD
    rw [get_score_matrix_entry D labels adj score_canonical i j h1 h2 h3 h4, hadj, hD]
    rw [score_canonical_zero_zero]
    rfl
  · intro i j h1 h2 h3 h4 hadj q hq hD
    rw [get_score_matrix_entry D labels adj score_canonical i j h1 h2 h3 h4, hadj, hD]
    rw [score_canonical_pos_zero q hq]
    rfl

/-- Witness for C8's amended theorem at the counterexample's concrete matrix:
the no-NaN and policy statements instantiated. -/
theorem get_score_matrix_nan_policy_witness :
    (∀ row ∈ (get_score_matrix
        [[NpFloat.fin 0, NpFloat.fin 1], [NpFloat.fin 1, NpFloat.fin 0]] [0, 1]
        (fun a b => if a = 0 ∧ b = 1 then some 0 else none) score_canonical).1,
      ∀ x ∈ row, x.isnan = false) ∧
    (∀ i j, i < ([[NpFloat.fin 0, NpFloat.fin 1],
        [NpFloat.fin 1, NpFloat.fin 0]] : List (List NpFloat)).length →
      i < ([0, 1] : List ℕ).length →
      j < (([[NpFloat.fin 0, NpFloat.fin 1],
        [NpFloat.fin 1, NpFloat.fin 0]] : List (List NpFloat)).getD i []).length →
      j < ([0, 1] : List ℕ).length →
      (fun a b => if a = 0 ∧ b = 1 then some (0 : ℚ) else none)
          (([0, 1] : List ℕ).getD i 0) (([0, 1] : List ℕ).getD j 0) = none →
      getEntryF (get_score_matrix
          [[NpFloat.fin 0, NpFloat.fin 1], [NpFloat.fin 1, NpFloat.fin 0]] [0, 1]
          (fun a b => if a = 0 ∧ b = 1 then some 0 else none) score_canonical).1 i j =
        NpFloat.fin 0) := by
  have h := get_score_matrix_nan_policy
    [[NpFloat.fin 0, NpFloat.fin 1], [NpFloat.fin 1, NpFloat.fin 0]] [0, 1]
    (fun a b => if a = 0 ∧ b = 1 then some 0 else none)
  exact ⟨h.1, h.2.1⟩

/-! ### select_best_feet (pose_estimation.py, lines 414-543) -/

/-- Translation of `inside_spheres` (lines 414-449): start from all-`False`
(`np.full(n_points, False)`) and OR in, for each sphere centre `i` of the
path, the boolean row `dist_matrix[i, :] <= r`. -/
def inside_spheres (dist_matrix : List (List ℚ)) (point_nums : List ℕ)
    (r : ℚ) : List Bool :=
  point_nums.foldl
    (fun in_sph i =>
      List.zipWith (fun a b => a || b) in_sph
        ((dist_matrix.getD i []).map (fun d => decide (d ≤ r))))
    (List.replicate dist_matrix.length false)

/-- Translation of `inside_radii` (lines 452-482): for each path and each
radius, the sphere-membership vector. -/
def inside_radii (dist_matrix : List (List ℚ)) (path_matrix : List (List ℕ))
    (radii : List ℚ) : List (List (List Bool)) :=
  path_matrix.map (fun path =>
    radii.map (fun r => inside_spheres dist_matrix path r))

/-- numpy boolean-mask selection `a[mask]`. -/
def mask_select {α : Type} (l : List α) (mask : List Bool) : List α :=
  ((l.zip mask).filter (fun p => p.2)).map (fun p => p.1)

/-- The sum `np.sum(score_matrix[mask, :][:, mask])` over the submatrix of
rows and columns selected by `mask`. -/
def submatrix_sum (score_matrix : List (List ℚ)) (mask : List Bool) : ℚ :=
  ((mask_select score_matrix mask).map (fun row => (mask_select row mask).sum)).sum

/-- `itertools.combinations(range(n_paths), 2)`: all pairs `(p, q)` with
`p < q`, in lexicographic order. -/
def combos_list (n : ℕ) : List (ℕ × ℕ) :=
  (List.range n).flatMap (fun p =>
    ((List.range n).filter (fun q => decide (p < q))).map (fun q => (p, q)))

/-- The `combo_scores` array computed inside the radius loop of
`select_best_feet` (lines 520-530): for radius index `i`, the summed score
submatrix over the union of the two paths' sphere regions, for every combo. -/
def combo_scores_at (dist_matrix score_matrix : List (List ℚ))
    (path_matrix : List (List ℕ)) (radii : List ℚ) (i : ℕ) : List ℚ :=
  (combos_list path_matrix.length).map (fun c =>
    submatrix_sum score_matrix
      (List.zipWith (fun a b => a || b)
        (((inside_radii dist_matrix path_matrix radii).getD c.1 []).getD i [])
        (((inside_radii dist_matrix path_matrix radii).getD c.2 []).getD i [])))

/-- Translation of `select_best_feet` (lines 485-543): for each radius, every
combo whose `combo_scores` entry equals the maximum gets one vote
(`votes = votes + (combo_scores == max(combo_scores))`); the function returns
`combos[np.argmax(votes)]`. -/
def select_best_feet (dist_matrix score_matrix : List (List ℚ))
    (path_matrix : List (List ℕ)) (radii : List ℚ) : ℕ × ℕ :=
  (combos_list path_matrix.length).getD
    (argmaxIdx
      ((List.range radii.length).foldl
        (fun votes i =>
          List.zipWith
            (fun v s =>
              v + if s = list_max
                  (combo_scores_at dist_matrix score_matrix path_matrix radii i)
                then (1 : ℚ) else 0)
            votes (combo_scores_at dist_matrix score_matrix path_matrix radii i))
        (List.replicate (combos_list path_matrix.length).length (0 : ℚ))))
    (0, 0)

/-- The score of the pair `c` at radius index `i`, phrased as the claim does:
the summed score submatrix over the union of the two paths' sphere regions. -/
def radius_score (dist_matrix score_matrix : List (List ℚ))
    (path_matrix : List (List ℕ)) (radii : List ℚ) (c : ℕ × ℕ) (i : ℕ) : ℚ :=
  submatrix_sum score_matrix
    (List.zipWith (fun a b => a || b)
      (inside_spheres dist_matrix (path_matrix.getD c.1 []) (radii.getD i 0))
      (inside_spheres dist_matrix (path_matrix.getD c.2 []) (radii.getD i 0)))

/-- Total vote count of the pair `c` over all radii: one vote for each radius
at which its score is maximal among all pairs. -/
def total_votes (dist_matrix score_matrix : List (List ℚ))
    (path_matrix : List (List ℕ)) (radii : List ℚ) (c : ℕ × ℕ) : ℚ :=
  ((List.range radii.length).map (fun i =>
    if radius_score dist_matrix score_matrix path_matrix radii c i =
        list_max ((combos_list path_matrix.length).map (fun c2 =>
          radius_score dist_matrix score_matrix path_matrix radii c2 i))
      then (1 : ℚ) else 0)).sum

/-- Strict lexicographic order on foot pairs. -/
def pair_lex_lt (c c2 : ℕ × ℕ) : Prop :=
  c.1 < c2.1 ∨ (c.1 = c2.1 ∧ c.2 < c2.2)

/-- Weak lexicographic order on foot pairs. -/
def pair_lex_le (c c2 : ℕ × ℕ) : Prop := c = c2 ∨ pair_lex_lt c c2

theorem mem_combos_lt (n : ℕ) (c : ℕ × ℕ) (h : c ∈ combos_list n) :
    c.1 < n ∧ c.2 < n ∧ c.1 < c.2 := by
  rcases List.mem_flatMap.mp h with ⟨p, hp, hc⟩
  rcases List.mem_map.mp hc with ⟨q, hq, rfl⟩
  rcases List.mem_filter.mp hq with ⟨hqr, hpq⟩
  exact ⟨List.mem_range.mp hp, List.mem_range.mp hqr, of_decide_eq_true hpq⟩

theorem combos_has_01 (n : ℕ) (h : 2 ≤ n) : (0, 1) ∈ combos_list n :=
  List.mem_flatMap.mpr ⟨0, List.mem_range.mpr (by omega),
    List.mem_map.mpr ⟨1,
      List.mem_filter.mpr ⟨List.mem_range.mpr (by omega), by simp⟩, rfl⟩⟩

theorem inside_radii_getD (D : List (List ℚ)) (P : List (List ℕ))
    (radii : List ℚ) (p i : ℕ) (hp : p < P.length) (hi : i < radii.length) :
    ((inside_radii D P radii).getD p []).getD i [] =
      inside_spheres D (P.getD p []) (radii.getD i 0) := by
  unfold inside_radii
  rw [getD_map _ _ p _ [] hp, getD_map _ _ i _ 0 hi]

theorem combo_scores_at_eq (D S : List (List ℚ)) (P : List (List ℕ))
    (radii : List ℚ) (i : ℕ) (hi : i < radii.length) :
    combo_scores_at D S P radii i =
      (combos_list P.length).map (fun c => radius_score D S P radii c i) := by
  unfold combo_scores_at
  apply List.map_congr_left
  intro c hc
  rcases mem_combos_lt _ c hc with ⟨h1, h2, _⟩
  rw [inside_radii_getD D P radii c.1 i h1 hi, inside_radii_getD D P radii c.2 i h2 hi]
  rfl

theorem combo_scores_at_length (D S : List (List ℚ)) (P : List (List ℕ))
    (radii : List ℚ) (i : ℕ) :
    (combo_scores_at D S P radii i).length = (combos_list P.length).length := by
  unfold combo_scores_at
  rw [List.length_map]

theorem votes_fold_spec (g : ℕ → List ℚ) (m : ℕ) (hg : ∀ i, (g i).length = m) :
    ∀ (I : List ℕ) (v0 : List ℚ), v0.length = m →
      ((I.foldl (fun votes i =>
          List.zipWith (fun v s => v + if s = list_max (g i) then (1 : ℚ) else 0)
            votes (g i)) v0).length = m ∧
       ∀ j, j < m →
        (I.foldl (fun votes i =>
          List.zipWith (fun v s => v + if s = list_max (g i) then (1 : ℚ) else 0)
            votes (g i)) v0).getD j 0 =
          v0.getD j 0 +
            (I.map (fun i =>
              if (g i).getD j 0 = list_max (g i) then (1 : ℚ) else 0)).sum) := by
  intro I
  induction I with
  | nil =>
    intro v0 hv0
    exact ⟨hv0, fun j hj => by simp⟩
  | cons i I ih =>
    intro v0 hv0
    rw [List.foldl_cons]
    have hv1 : (List.zipWith (fun v s => v + if s = list_max (g i) then (1 : ℚ) else 0)
        v0 (g i)).length = m := by
      rw [List.length_zipWith, hv0, hg i]
      simp
    rcases ih _ hv1 with ⟨hlen, hget⟩
    refine ⟨hlen, ?_⟩
    intro j hj
    rw [hget j hj]
    rw [getD_zipWith _ v0 (g i) j 0 0 0 (by omega) (by rw [hg i]; omega)]
    rw [List.map_cons, List.sum_cons]
    ring

theorem pairwise_flatMap_of {α β : Type} (R : β → β → Prop) (f : α → List β) :
    ∀ (L : List α), (∀ a ∈ L, List.Pairwise R (f a)) →
      List.Pairwise (fun a a2 => ∀ x ∈ f a, ∀ y ∈ f a2, R x y) L →
      List.Pairwise R (L.flatMap f) := by
  intro L
  induction L with
  | nil => intro _ _; simp
  | cons a L ih =>
    intro hin hp
    rw [List.flatMap_cons]
    rw [List.pairwise_append]
    rcases List.pairwise_cons.mp hp with ⟨hhead, htail⟩
    refine ⟨hin a (List.mem_cons_self a L), ih (fun b hb => hin b (List.mem_cons_of_mem a hb)) htail, ?_⟩
    intro x hx y hy
    rcases List.mem_flatMap.mp hy with ⟨a2, ha2, hy2⟩
    exact hhead a2 ha2 x hx y hy2

theorem combos_list_pairwise (n : ℕ) :
    List.Pairwise pair_lex_lt (combos_list n) := by
  unfold combos_list
  apply pairwise_flatMap_of
  · intro p _
    rw [List.pairwise_map]
    have : List.Pairwise (fun a b => a < b) ((List.range n).filter (fun q => decide (p < q))) :=
      List.Pairwise.sublist (List.filter_sublist _) (List.pairwise_lt_range n)
    exact List.Pairwise.imp (fun h => Or.inr ⟨rfl, h⟩) this
  · have : List.Pairwise (fun a b => a < b) (List.range n) := List.pairwise_lt_range n
    apply List.Pairwise.imp ?_ this
    intro p p2 hpp x hx y hy
    rcases List.mem_map.mp hx with ⟨q, _, rfl⟩
    rcases List.mem_map.mp hy with ⟨q2, _, rfl⟩
    exact Or.inl hpp

theorem combos_pairwise_getD (n : ℕ) (j1 j2 : ℕ)
    (h1 : j1 < (combos_list n).length) (h2 : j2 < (combos_list n).length)
    (hlt : j1 < j2) :
    pair_lex_lt ((combos_list n).getD j1 (0, 0)) ((combos_list n).getD j2 (0, 0)) := by
  rw [getD_eq_getElem _ _ _ h1, getD_eq_getElem _ _ _ h2]
  exact List.pairwise_iff_getElem.mp (combos_list_pairwise n) j1 j2 h1 h2 hlt

/-- Claim C2: `select_best_feet` enumerates all unordered pairs `(p, q)` of
foot-path rows with `p < q`; at each radius every pair whose summed score
submatrix over the union of the two paths' sphere regions is maximal receives
one vote; the returned pair has the highest total vote count over all radii
and, among pairs tying on total votes, is the lexicographically smallest. -/
theorem select_best_feet_votes_lex (D S : List (List ℚ)) (P : List (List ℕ))
    (radii : List ℚ) (h2 : 2 ≤ P.length) (hr : radii ≠ []) :
    select_best_feet D S P radii ∈ combos_list P.length ∧
    (∀ c2 ∈ combos_list P.length,
      total_votes D S P radii c2 ≤
        total_votes D S P radii (select_best_feet D S P radii)) ∧
    (∀ c2 ∈ combos_list P.length,
      total_votes D S P radii c2 =
        total_votes D S P radii (select_best_feet D S P radii) →
      pair_lex_le (select_best_feet D S P radii) c2) := by
  have _ := hr
  set votes := (List.range radii.length).foldl
    (fun votes i =>
      List.zipWith
        (fun v s =>
          v + if s = list_max (combo_scores_at D S P radii i) then (1 : ℚ) else 0)
        votes (combo_scores_at D S P radii i))
    (List.replicate (combos_list P.length).length (0 : ℚ)) with hvotes
  have hres : select_best_feet D S P radii =
      (combos_list P.length).getD (argmaxIdx votes) (0, 0) := rfl
  have hg : ∀ i, (combo_scores_at D S P radii i).length =
      (combos_list P.length).length := combo_scores_at_length D S P radii
  have hv := votes_fold_spec (combo_scores_at D S P radii)
    (combos_list P.length).length hg (List.range radii.length)
    (List.replicate (combos_list P.length).length (0 : ℚ)) (by simp)
  have hvlen : votes.length = (combos_list P.length).length := hv.1
  have hbridge : ∀ j, j < (combos_list P.length).length →
      votes.getD j 0 =
        total_votes D S P radii ((combos_list P.length).getD j (0, 0)) := by
    intro j hj
    rw [hvotes]
    rw [hv.2 j hj]
    rw [getD_eq_getElem _ j 0 (by simpa using hj), List.getElem_replicate]
    rw [zero_add]
    unfold total_votes
    congr 1
    apply List.map_congr_left
    intro i hi
    have hilt : i < radii.length := List.mem_range.mp hi
    rw [combo_scores_at_eq D S P radii i hilt]
    rw [getD_map _ _ j _ (0, 0) hj]
  have hm_pos : 0 < (combos_list P.length).length :=
    List.length_pos.mpr (List.ne_nil_of_mem (combos_has_01 P.length h2))
  have hvne : votes ≠ [] := by
    apply List.ne_nil_of_length_pos
    rw [hvlen]
    exact hm_pos
  have hi0 : argmaxIdx votes < (combos_list P.length).length := by
    have := argmaxIdx_lt_length votes hvne
    rwa [hvlen] at this
  refine ⟨?_, ?_, ?_⟩
  · rw [hres]
    exact getD_mem _ _ _ hi0
  · intro c2 hc2
    rcases List.mem_iff_getElem.mp hc2 with ⟨j, hj, hje⟩
    have hj' : j < (combos_list P.length).length := hj
    have h1 : total_votes D S P radii c2 = votes.getD j 0 := by
      rw [hbridge j hj', getD_eq_getElem _ j (0, 0) hj, hje]
    have h2' : total_votes D S P radii (select_best_feet D S P radii) =
        votes.getD (argmaxIdx votes) 0 := by
      rw [hres, hbridge _ hi0]
    rw [h1, h2']
    exact getD_le_argmaxIdx 0 votes j (by rwa [hvlen])
  · intro c2 hc2 heq
    rcases List.mem_iff_getElem.mp hc2 with ⟨j, hj, hje⟩
    have hj' : j < (combos_list P.length).length := hj
    have h1 : total_votes D S P radii c2 = votes.getD j 0 := by
      rw [hbridge j hj', getD_eq_getElem _ j (0, 0) hj, hje]
    have h2' : total_votes D S P radii (select_best_feet D S P radii) =
        votes.getD (argmaxIdx votes) 0 := by
      rw [hres, hbridge _ hi0]
    rcases Nat.lt_trichotomy j (argmaxIdx votes) with hlt | hsame | hgt
    · exfalso
      have := getD_lt_of_lt_argmaxIdx 0 votes j hlt
      rw [← h1, ← h2', heq] at this
      exact lt_irrefl _ this
    · left
      rw [hres, ← hsame, getD_eq_getElem _ j (0, 0) hj, hje]
    · right
      have := combos_pairwise_getD P.length (argmaxIdx votes) j hi0 hj' hgt
      rw [getD_eq_getElem _ j (0, 0) hj, hje] at this
      rw [hres]
      exact this

/-- Witness for C2 at a concrete input: two one-node paths, one radius. -/
theorem select_best_feet_votes_lex_witness :
    select_best_feet [[0, 3], [3, 0]] [[1, 2], [3, 4]] [[0], [1]] [5] ∈
      combos_list ([[0], [1]] : List (List ℕ)).length ∧
    (∀ c2 ∈ combos_list ([[0], [1]] : List (List ℕ)).length,
      total_votes [[0, 3], [3, 0]] [[1, 2], [3, 4]] [[0], [1]] [5] c2 ≤
        total_votes [[0, 3], [3, 0]] [[1, 2], [3, 4]] [[0], [1]] [5]
          (select_best_feet [[0, 3], [3, 0]] [[1, 2], [3, 4]] [[0], [1]] [5])) ∧
    (∀ c2 ∈ combos_list ([[0], [1]] : List (List ℕ)).length,
      total_votes [[0, 3], [3, 0]] [[1, 2], [3, 4]] [[0], [1]] [5] c2 =
        total_votes [[0, 3], [3, 0]] [[1, 2], [3, 4]] [[0], [1]] [5]
          (select_best_feet [[0, 3], [3, 0]] [[1, 2], [3, 4]] [[0], [1]] [5]) →
      pair_lex_le
        (select_best_feet [[0, 3], [3, 0]] [[1, 2], [3, 4]] [[0], [1]] [5]) c2) :=
  select_best_feet_votes_lex [[0, 3], [3, 0]] [[1, 2], [3, 4]] [[0], [1]] [5]
    (by simp) (by simp)

end GaitPose
